import Mathlib

/-!
Verification development for the IR signal codec in miio/chuangmi_ir.py
(python-mirobo).  The Python code is shallowly embedded: byte streams are
lists of naturals, Python ints are Lean integers, Python floats are modelled
by exact rationals, and every fallible operation returns an explicit result
type.  Exceptions raised by the construct library during building or parsing
are modelled as classified error values, distinguished from the codec's own
ChuangmiIrException.
-/

set_option maxHeartbeats 1000000

namespace Mirobo

/-- Errors raised by the construct library while building a blob:
Array length mismatch (RangeError), a FormatField value out of range for
struct.pack (FormatFieldError), and a BitsInteger value not fitting its
width (IntegerError). -/
inductive BuildErr where
  | rangeError
  | formatField
  | integerError
deriving DecidableEq, Repr

/-- Error classification for the embedded Python code: the codec's own
ChuangmiIrException with its message, or an uncaught construct error. -/
inductive PyErr where
  | chuangmi (msg : String)
  | construct (e : BuildErr)
deriving DecidableEq, Repr

/-- Result of running an embedded Python computation that may raise. -/
inductive PRes (α : Type) where
  | ok (val : α)
  | error (e : PyErr)
deriving DecidableEq, Repr

/-- True when the computation returned normally. -/
def PRes.isOk {α : Type} : PRes α → Bool
  | .ok _ => true
  | .error _ => false

/-- A decoded Pronto burst pair: pulse and gap duration in microseconds,
after the ProntoPulseAdapter conversion, which applies Python int() to the
product of the raw tick count and the modulation period. -/
structure BurstPair where
  pulse : ℤ
  gap : ℤ
deriving DecidableEq, Repr

/-- One entry of the edge_pairs array of ChuangmiIrSignal: two 4-bit
indices into the times_index table. -/
structure EdgePair where
  pulse : Nat
  gap : Nat
deriving DecidableEq, Repr

/-- Result of parsing the Pronto struct: carrier tick count, the computed
frequency field, and the intro and repeat burst-pair arrays.  The source
field name repeat is a Lean keyword, hence rep. -/
structure ProntoData where
  ticks : Nat
  frequency : ℚ
  intro : List BurstPair
  rep : List BurstPair
deriving DecidableEq, Repr

/-- Read a big-endian 16-bit unsigned integer (construct Int16ub). -/
def readU16be : List Nat → Option (Nat × List Nat)
  | a :: b :: rest => some (a * 256 + b, rest)
  | _ => none

/-- Read a little-endian 16-bit unsigned integer (construct Int16ul). -/
def readU16le : List Nat → Option (Nat × List Nat)
  | a :: b :: rest => some (a + 256 * b, rest)
  | _ => none

/-- Read a little-endian 32-bit unsigned integer (construct Int32ul). -/
def readU32le : List Nat → Option (Nat × List Nat)
  | a :: b :: c :: d :: rest => some (a + 256 * (b + 256 * (c + 256 * d)), rest)
  | _ => none

/-- Read a fixed-count array of items (construct Array on parsing): read
the element count demanded by the count expression, failing when the data
runs out. -/
def readList {α : Type} (f : List Nat → Option (α × List Nat)) :
    Nat → List Nat → Option (List α × List Nat)
  | 0, bs => some ([], bs)
  | n + 1, bs =>
    match f bs with
    | none => none
    | some (x, bs1) =>
      match readList f n bs1 with
      | none => none
      | some (xs, bs2) => some (x :: xs, bs2)

/-- The modulation_period Computed field of the Pronto struct:
this._ticks * 0.241246, with the float constant as an exact rational. -/
def modulation_period (ticks : Nat) : ℚ := (ticks : ℚ) * (241246 / 1000000)

/-- The ProntoPulseAdapter decode step, int(obj * context._.modulation_period):
the value is nonnegative, so Python int() truncation is the floor of the
exact rational raw * ticks * 241246 / 1000000, which equals this integer
division; the lemma pulseUs_floor below certifies the equality with the
rational-arithmetic formula. -/
def pulseUs (ticks raw : Nat) : ℤ := ((raw * ticks * 241246) / 1000000 : ℕ)

/-- Parse one ProntoBurstPair: two big-endian 16-bit tick counts, each fed
through the ProntoPulseAdapter. -/
def readBurstPair (ticks : Nat) (bs : List Nat) : Option (BurstPair × List Nat) :=
  match readU16be bs with
  | none => none
  | some (praw, bs1) =>
    match readU16be bs1 with
    | none => none
    | some (graw, bs2) => some (⟨pulseUs ticks praw, pulseUs ticks graw⟩, bs2)

/-- Parse the Pronto struct: Const 0 marker, tick count, the two computed
fields, intro_len, repeat_len, then the two burst-pair arrays.  A zero tick
count makes the frequency Computed field raise ZeroDivisionError, hence
none.  Trailing bytes are ignored, as construct does by default. -/
def prontoParse (bs : List Nat) : Option ProntoData :=
  match readU16be bs with
  | none => none
  | some (marker, bs1) =>
    if marker = 0 then
      match readU16be bs1 with
      | none => none
      | some (ticks, bs2) =>
        if ticks = 0 then none
        else
          match readU16be bs2 with
          | none => none
          | some (intro_len, bs3) =>
            match readU16be bs3 with
            | none => none
            | some (repeat_len, bs4) =>
              match readList (readBurstPair ticks) intro_len bs4 with
              | none => none
              | some (intro, bs5) =>
                match readList (readBurstPair ticks) repeat_len bs5 with
                | none => none
                | some (rep, _) =>
                  some ⟨ticks, 1000000 / modulation_period ticks, intro, rep⟩
    else none

/-- Value of an ASCII hex digit, case insensitive; the code points are
those of the ranges 0-9, a-f and A-F. -/
def hexVal (c : Char) : Option Nat :=
  if 48 ≤ c.toNat ∧ c.toNat ≤ 57 then some (c.toNat - 48)
  else if 97 ≤ c.toNat ∧ c.toNat ≤ 102 then some (c.toNat - 87)
  else if 65 ≤ c.toNat ∧ c.toNat ≤ 70 then some (c.toNat - 55)
  else none

/-- ASCII whitespace as skipped by Python bytearray.fromhex. -/
def isPyWs (c : Char) : Bool :=
  c = ' ' || c = '\t' || c = '\n' || c = '\r' || c = '\x0b' || c = '\x0c'

/-- Python bytearray.fromhex on a character list: whitespace may separate
byte pairs, each byte is two immediately adjacent hex digits, anything else
raises ValueError (none). -/
def fromhexAux : List Char → Option (List Nat)
  | [] => some []
  | c :: cs =>
    if isPyWs c then fromhexAux cs
    else
      match hexVal c with
      | none => none
      | some hi =>
        match cs with
        | [] => none
        | d :: cs2 =>
          match hexVal d with
          | none => none
          | some lo =>
            match fromhexAux cs2 with
            | none => none
            | some r => some ((hi * 16 + lo) :: r)

/-- Python bytearray.fromhex on a string. -/
def fromhex (s : String) : Option (List Nat) := fromhexAux s.data

/-- Python round(): round half to even, as applied to an exact rational. -/
def pyRound (q : ℚ) : ℤ :=
  if q - (Int.floor q : ℚ) < 1 / 2 then Int.floor q
  else if 1 / 2 < q - (Int.floor q : ℚ) then Int.floor q + 1
  else if Int.floor q % 2 = 0 then Int.floor q else Int.floor q + 1

/-- Python round() on the nonnegative rational a / b with b nonzero, round
half to even, computed on the integer pair; the lemma pyRoundNat_eq below
certifies the equality with pyRound. -/
def pyRoundNat (a b : Nat) : ℤ :=
  if 2 * (a % b) < b then (a / b : ℕ)
  else if b < 2 * (a % b) then ((a / b : ℕ) : ℤ) + 1
  else if (a / b) % 2 = 0 then (a / b : ℕ) else ((a / b : ℕ) : ℤ) + 1

/-- int(round(frequency)) as computed by _parse_pronto: the frequency field
equals 10^12 / (241246 * ticks) exactly, so Python round() on it is
pyRoundNat of that integer pair; the lemma prontoFrequency_eq below
certifies the equality with pyRound of the frequency formula. -/
def prontoFrequency (ticks : Nat) : ℤ := pyRoundNat 1000000000000 (241246 * ticks)

/-- ChuangmiIr._parse_pronto: hex-decode the string, parse the Pronto
struct, return intro pairs, repeat pairs and int(round(frequency)).  Any
exception inside is re-raised as ChuangmiIrException with this message. -/
def parse_pronto (pronto : String) : PRes (List BurstPair × List BurstPair × ℤ) :=
  match fromhex pronto with
  | none => .error (.chuangmi "Invalid Pronto command")
  | some bs =>
    match prontoParse bs with
    | none => .error (.chuangmi "Invalid Pronto command")
    | some pd => .ok (pd.intro, pd.rep, prontoFrequency pd.ticks)

/-- Python list repetition: l * n, the concatenation of n copies of l. -/
def listMul {α : Type} : Nat → List α → List α
  | 0, _ => []
  | n + 1, l => l ++ listMul n l

/-- The pulse and gap durations of a burst-pair list, in iteration order,
as fed into the times set by pronto_to_raw. -/
def listTimes : List BurstPair → List ℤ
  | [] => []
  | p :: ps => p.pulse :: p.gap :: listTimes ps

/-- Python sorted(set(l)): the distinct values of l in ascending order. -/
def timesList (l : List ℤ) : List ℤ :=
  List.insertionSort (fun a b => a ≤ b) l.dedup

/-- Lines 108-109 of pronto_to_raw: with an empty intro the repeats counter
itself is incremented, and every later use sees the incremented value. -/
def effRepeats (intro : List BurstPair) (repeats : ℤ) : ℤ :=
  if intro.length = 0 then repeats + 1 else repeats

/-- Line 112 of pronto_to_raw: the pair list scanned for timing values,
intro_pairs + repeat_pairs * (1 if repeats else 0), where repeats is the
(possibly incremented) counter r. -/
def scanList (intro rep : List BurstPair) (r : ℤ) : List BurstPair :=
  intro ++ (if r = 0 then [] else rep)

/-- The sorted distinct timing values pronto_to_raw derives from the parsed
signal and the repeats argument. -/
def timesOf (intro rep : List BurstPair) (repeats : ℤ) : List ℤ :=
  timesList (listTimes (scanList intro rep (effRepeats intro repeats)))

/-- Line 119 of pronto_to_raw: the transmitted pair list,
intro_pairs + repeat_pairs * repeats, with the incremented counter. -/
def transmittedOf (intro rep : List BurstPair) (repeats : ℤ) : List BurstPair :=
  intro ++ listMul (effRepeats intro repeats).toNat rep

/-- Lines 118-123 of pronto_to_raw: each transmitted pair mapped to its
pair of indices in the times table. -/
def epsOf (intro rep : List BurstPair) (repeats : ℤ) : List EdgePair :=
  (transmittedOf intro rep repeats).map
    (fun p => ⟨(timesOf intro rep repeats).indexOf p.pulse,
               (timesOf intro rep repeats).indexOf p.gap⟩)

/-- Line 126 of pronto_to_raw: times + [0] * (16 - len(times)); the Python
multiplier is clamped at zero exactly like Nat subtraction. -/
def paddedOf (intro rep : List BurstPair) (repeats : ℤ) : List ℤ :=
  timesOf intro rep repeats ++
    List.replicate (16 - (timesOf intro rep repeats).length) 0

/-- Build construct Int16ul: two little-endian bytes; struct.pack raises
for a value outside the unsigned 16-bit range. -/
def buildInt16ul (v : ℤ) : PRes (List Nat) :=
  if 0 ≤ v ∧ v < 65536 then .ok [v.toNat % 256, v.toNat / 256]
  else .error (.construct .formatField)

/-- Build construct Int32ul: four little-endian bytes; struct.pack raises
for a value outside the unsigned 32-bit range. -/
def buildInt32ul (v : ℤ) : PRes (List Nat) :=
  if 0 ≤ v ∧ v < 4294967296 then
    .ok [v.toNat % 256, v.toNat / 256 % 256, v.toNat / 65536 % 256,
         v.toNat / 16777216 % 256]
  else .error (.construct .formatField)

/-- Build each element in order, concatenating the produced bytes and
propagating the first error. -/
def buildListWith {α : Type} (f : α → PRes (List Nat)) : List α → PRes (List Nat)
  | [] => .ok []
  | x :: xs =>
    match f x with
    | .error e => .error e
    | .ok bx =>
      match buildListWith f xs with
      | .error e => .error e
      | .ok rest => .ok (bx ++ rest)

/-- Build the times_index field, Array(16, Int32ul): construct Array first
checks that the supplied list has exactly the declared count and raises
RangeError otherwise. -/
def buildTimesIndex (l : List ℤ) : PRes (List Nat) :=
  if l.length = 16 then buildListWith buildInt32ul l
  else .error (.construct .rangeError)

/-- Build one edge pair, BitStruct of gap then pulse as 4-bit integers:
gap occupies the high nibble.  A value not fitting 4 bits fails. -/
def buildEdgePair (p : EdgePair) : PRes (List Nat) :=
  if p.gap < 16 ∧ p.pulse < 16 then .ok [p.gap * 16 + p.pulse]
  else .error (.construct .integerError)

/-- ChuangmiIrSignal.build on {times_index, edge_pairs}: the magic constant
0xa567 little endian, then the Rebuild field edge_count computed as
2 * len(edge_pairs) - 1 and never taken from the caller, then the padded
times table, then the packed nibble pairs. -/
def ChuangmiIrSignal_build (times_index : List ℤ) (edge_pairs : List EdgePair) :
    PRes (List Nat) :=
  match buildInt16ul (2 * (edge_pairs.length : ℤ) - 1) with
  | .error e => .error e
  | .ok ecB =>
    match buildTimesIndex times_index with
    | .error e => .error e
    | .ok tiB =>
      match buildListWith buildEdgePair edge_pairs with
      | .error e => .error e
      | .ok epB => .ok ([0x67, 0xa5] ++ (ecB ++ (tiB ++ epB)))

/-- Parse one edge-pair byte: pulse is the low nibble, gap the high one. -/
def readEdgePair : List Nat → Option (EdgePair × List Nat)
  | b :: rest => some (⟨b % 16, b / 16⟩, rest)
  | [] => none

/-- ChuangmiIrSignal.parse: check the magic constant, read edge_count, read
the 16 table entries, then read (edge_count + 1) // 2 edge pairs, the count
being derived from the edge_count field itself.  Trailing bytes are
ignored, as construct does by default. -/
def ChuangmiIrSignal_parse (bs : List Nat) :
    Option (Nat × List ℤ × List EdgePair) :=
  match readU16le bs with
  | none => none
  | some (magic, bs1) =>
    if magic = 0xa567 then
      match readU16le bs1 with
      | none => none
      | some (ec, bs2) =>
        match readList readU32le 16 bs2 with
        | none => none
        | some (ti, bs3) =>
          match readList readEdgePair ((ec + 1) / 2) bs3 with
          | none => none
          | some (eps, _) => some (ec, ti.map Int.ofNat, eps)
    else none

/-- The base64 alphabet. -/
def b64chars : List Char :=
  "ABCDEFGHIJKLMNOPQRSTUVWXYZabcdefghijklmnopqrstuvwxyz0123456789+/".data

/-- Character for a 6-bit group. -/
def b64char (n : Nat) : Char := b64chars.getD n 'A'

/-- Standard base64 of a byte list, as character list. -/
def b64encodeAux : List Nat → List Char
  | [] => []
  | [a] => [b64char (a / 4), b64char (a % 4 * 16), '=', '=']
  | [a, b] => [b64char (a / 4), b64char (a % 4 * 16 + b / 16), b64char (b % 16 * 4), '=']
  | a :: b :: c :: rest =>
    b64char (a / 4) :: b64char (a % 4 * 16 + b / 16) ::
      b64char (b % 16 * 4 + c / 64) :: b64char (c % 64) :: b64encodeAux rest

/-- base64.b64encode(...).decode(): the base64 string of a byte list. -/
def b64encode (bs : List Nat) : String := ⟨b64encodeAux bs⟩

/-- The UTF-8 bytes of an ASCII string, as produced by str.encode(). -/
def strBytes (s : String) : List Nat := s.data.map Char.toNat

/-- ChuangmiIr.pronto_to_raw: reject negative repeats, parse the Pronto
string, build the times table and edge pairs, serialize, base64-encode.
Construct errors raised by the build escape unclassified. -/
def pronto_to_raw (pronto : String) (repeats : ℤ) : PRes (String × ℤ) :=
  if repeats < 0 then .error (.chuangmi "Invalid repeats value")
  else
    match parse_pronto pronto with
    | .error e => .error e
    | .ok (intro, rep, freq) =>
      match ChuangmiIrSignal_build (paddedOf intro rep repeats)
          (epsOf intro rep repeats) with
      | .error e => .error e
      | .ok bs => .ok (b64encode bs, freq)

/-- ChuangmiRemote.pronto_to_raw: the heatshrink module is either absent
(None after the failed import) or an encoder over byte streams.  When
absent the codec raises its classified exception; otherwise the payload is
the base64 of the compressed bytes of the literal string learn followed by
the base encoding, with the frequency passed through. -/
def ChuangmiRemote_pronto_to_raw (heatshrink : Option (List Nat → List Nat))
    (pronto : String) (repeats : ℤ) : PRes (String × ℤ) :=
  match heatshrink with
  | none => .error (.chuangmi "Heatshrink library is missing")
  | some enc =>
    match pronto_to_raw pronto repeats with
    | .error e => .error e
    | .ok (raw, freq) => .ok (b64encode (enc (strBytes ("learn" ++ raw))), freq)

/-- A hex digit as matched by the PRONTO_RE character class, restricted to
ASCII inputs: the code points of 0-9, a-f and A-F. -/
def isReHexDigit (c : Char) : Bool :=
  (48 ≤ c.toNat && c.toNat ≤ 57) || (97 ≤ c.toNat && c.toNat ≤ 102) ||
    (65 ≤ c.toNat && c.toNat ≤ 70)

/-- ASCII whitespace as matched by the regex class backslash-s. -/
def isReWs (c : Char) : Bool :=
  c = ' ' || c = '\t' || c = '\n' || c = '\r' || c = '\x0b' || c = '\x0c'

/-- Worker for the PRONTO_RE segmentation, with a structural fuel counter
so that the definition evaluates inside the kernel; every recursive call
consumes at least four characters, so any fuel of at least the input length
gives the fixed point. -/
def prontoGroupsF : Nat → List Char → Option Nat
  | 0, _ => none
  | fuel + 1, l =>
    match l with
    | [a, b, c, d] =>
      if isReHexDigit a && isReHexDigit b && isReHexDigit c && isReHexDigit d then
        some 1
      else none
    | a :: b :: c :: d :: e :: rest2 =>
      if isReHexDigit a && isReHexDigit b && isReHexDigit c && isReHexDigit d then
        if isReWs e then
          if rest2.isEmpty then none
          else
            match prontoGroupsF fuel rest2 with
            | none => none
            | some n => some (n + 1)
        else
          match prontoGroupsF fuel (e :: rest2) with
          | none => none
          | some n => some (n + 1)
      else none
    | _ => none

/-- Segmentation of a character list into groups of four hex digits, each
group optionally followed by a single whitespace character except the last
one, returning the number of groups.  This is the unique way the body of
PRONTO_RE can match. -/
def prontoGroups (l : List Char) : Option Nat := prontoGroupsF l.length l

/-- ChuangmiIr.PRONTO_RE.match on an ASCII string: at least four groups of
four hex digits; the trailing dollar anchor also matches just before one
final newline. -/
def PRONTO_RE_match (s : String) : Bool :=
  let check := fun (l : List Char) =>
    match prontoGroups l with
    | some n => 4 ≤ n
    | none => false
  check s.data ||
    (match s.data.getLast? with
     | some c => c = '\n' && check s.data.dropLast
     | none => false)

/-- A Pronto string with carrier 0x6d and eight intro pairs whose raw tick
counts 1..16 decode to sixteen distinct durations. -/
def pronto16 : String :=
  "0000 006d 0008 0000 0001 0002 0003 0004 0005 0006 0007 0008 0009 000a 000b 000c 000d 000e 000f 0010"

/-- The burst pairs parsed from the intro of pronto16 and prontoBig:
floor(k * 109 * 0.241246) for k = 1..16. -/
def introSixteen : List BurstPair :=
  [⟨26, 52⟩, ⟨78, 105⟩, ⟨131, 157⟩, ⟨184, 210⟩, ⟨236, 262⟩, ⟨289, 315⟩,
   ⟨341, 368⟩, ⟨394, 420⟩]

/-- A Pronto string with nine intro pairs carrying seventeen distinct raw
tick counts 1..17, hence seventeen distinct durations. -/
def pronto17 : String :=
  "0000 006d 0009 0000 0001 0002 0003 0004 0005 0006 0007 0008 0009 000a 000b 000c 000d 000e 000f 0010 0011 0011"

/-- The burst pairs parsed from the intro of pronto17. -/
def introSeventeen : List BurstPair :=
  [⟨26, 52⟩, ⟨78, 105⟩, ⟨131, 157⟩, ⟨184, 210⟩, ⟨236, 262⟩, ⟨289, 315⟩,
   ⟨341, 368⟩, ⟨394, 420⟩, ⟨447, 447⟩]

/-- Like pronto16 but with one repeat pair reusing the raw tick counts 1
and 2, so that the distinct-duration count stays sixteen while the repeat
phase can be multiplied arbitrarily. -/
def prontoBig : String :=
  "0000 006d 0008 0001 0001 0002 0003 0004 0005 0006 0007 0008 0009 000a 000b 000c 000d 000e 000f 0010 0001 0002"

/-! Helper lemmas about the list combinators of the embedding. -/

lemma length_listMul {α : Type} (n : Nat) (l : List α) :
    (listMul n l).length = n * l.length := by
  induction n with
  | zero => simp [listMul]
  | succ k ih => simp [listMul, ih]; ring

lemma mem_listMul {α : Type} {x : α} {n : Nat} {l : List α}
    (h : x ∈ listMul n l) : x ∈ l := by
  induction n with
  | zero => simp [listMul] at h
  | succ k ih =>
    rcases List.mem_append.1 h with h1 | h1
    · exact h1
    · exact ih h1

lemma mem_listTimes {v : ℤ} {l : List BurstPair} :
    v ∈ listTimes l ↔ ∃ p ∈ l, v = p.pulse ∨ v = p.gap := by
  induction l with
  | nil => simp [listTimes]
  | cons q qs ih =>
    simp only [listTimes, List.mem_cons, ih]
    constructor
    · rintro (rfl | rfl | ⟨p, hp, hv⟩)
      · exact ⟨q, Or.inl rfl, Or.inl rfl⟩
      · exact ⟨q, Or.inl rfl, Or.inr rfl⟩
      · exact ⟨p, Or.inr hp, hv⟩
    · rintro ⟨p, (rfl | hp), hv⟩
      · rcases hv with rfl | rfl
        · exact Or.inl rfl
        · exact Or.inr (Or.inl rfl)
      · exact Or.inr (Or.inr ⟨p, hp, hv⟩)

lemma mem_timesList {v : ℤ} {l : List ℤ} : v ∈ timesList l ↔ v ∈ l := by
  unfold timesList
  rw [(List.perm_insertionSort _ _).mem_iff, List.mem_dedup]

lemma mem_scanList {intro rep : List BurstPair} {r : ℤ} {p : BurstPair}
    (h : p ∈ scanList intro rep r) : p ∈ intro ++ rep := by
  unfold scanList at h
  rcases List.mem_append.1 h with h1 | h1
  · exact List.mem_append_left _ h1
  · split at h1
    · simp at h1
    · exact List.mem_append_right _ h1

lemma mem_transmitted_mem_scan {intro rep : List BurstPair} {r : ℤ} {p : BurstPair}
    (hp : p ∈ intro ++ listMul r.toNat rep) : p ∈ scanList intro rep r := by
  rcases List.mem_append.1 hp with h | h
  · exact List.mem_append_left _ h
  · have hr : r.toNat ≠ 0 := by
      intro h0
      rw [h0] at h
      simp [listMul] at h
    have hrz : ¬ r = 0 := by
      intro h0
      rw [h0] at hr
      simp at hr
    unfold scanList
    rw [if_neg hrz]
    exact List.mem_append_right _ (mem_listMul h)

lemma pair_mem_times {intro rep : List BurstPair} {n : ℤ} {p : BurstPair}
    (hp : p ∈ transmittedOf intro rep n) :
    p.pulse ∈ timesOf intro rep n ∧ p.gap ∈ timesOf intro rep n := by
  unfold transmittedOf at hp
  have hs := mem_transmitted_mem_scan hp
  unfold timesOf
  constructor <;> rw [mem_timesList] <;> rw [mem_listTimes]
  · exact ⟨p, hs, Or.inl rfl⟩
  · exact ⟨p, hs, Or.inr rfl⟩

/-! Roundtrip lemmas for the individual construct field types. -/

lemma buildInt16ul_ok {v : ℤ} (h0 : 0 ≤ v) (h1 : v < 65536) :
    buildInt16ul v = .ok [v.toNat % 256, v.toNat / 256] := by
  simp [buildInt16ul, h0, h1]

lemma readU16le_build {v : ℤ} (h0 : 0 ≤ v) (h1 : v < 65536) (rest : List Nat) :
    readU16le ([v.toNat % 256, v.toNat / 256] ++ rest) = some (v.toNat, rest) := by
  simp only [List.cons_append, List.nil_append, readU16le]
  congr 1
  rw [Prod.ext_iff]
  exact ⟨by simp; omega, rfl⟩

lemma buildInt32ul_ok {v : ℤ} (h0 : 0 ≤ v) (h1 : v < 4294967296) :
    buildInt32ul v = .ok [v.toNat % 256, v.toNat / 256 % 256, v.toNat / 65536 % 256,
      v.toNat / 16777216 % 256] := by
  simp [buildInt32ul, h0, h1]

lemma readU32le_build {v : ℤ} (h0 : 0 ≤ v) (h1 : v < 4294967296) (rest : List Nat) :
    readU32le ([v.toNat % 256, v.toNat / 256 % 256, v.toNat / 65536 % 256,
      v.toNat / 16777216 % 256] ++ rest) = some (v.toNat, rest) := by
  simp only [List.cons_append, List.nil_append, readU32le]
  congr 1
  rw [Prod.ext_iff]
  refine ⟨?_, rfl⟩
  simp
  omega

lemma buildEdgePair_ok {p : EdgePair} (h1 : p.pulse < 16) (h2 : p.gap < 16) :
    buildEdgePair p = .ok [p.gap * 16 + p.pulse] := by
  simp [buildEdgePair, h1, h2]

lemma readEdgePair_build {p : EdgePair} (h1 : p.pulse < 16) (h2 : p.gap < 16)
    (rest : List Nat) :
    readEdgePair ([p.gap * 16 + p.pulse] ++ rest) = some (p, rest) := by
  simp only [List.cons_append, List.nil_append, readEdgePair]
  congr 2
  cases p with
  | mk pl g =>
    simp at h1 h2 ⊢
    constructor <;> omega

lemma buildListWith_readList {α β : Type} (f : α → PRes (List Nat))
    (g : List Nat → Option (β × List Nat)) (m : α → β) (l : List α)
    (H : ∀ x ∈ l, ∃ bx, f x = .ok bx ∧ ∀ rest, g (bx ++ rest) = some (m x, rest)) :
    ∃ bs, buildListWith f l = .ok bs ∧
      ∀ rest, readList g l.length (bs ++ rest) = some (l.map m, rest) := by
  induction l with
  | nil => exact ⟨[], rfl, fun rest => rfl⟩
  | cons x xs ih =>
    obtain ⟨bx, hbx, hgx⟩ := H x (List.mem_cons_self x xs)
    obtain ⟨bs, hbs, hread⟩ := ih (fun y hy => H y (List.mem_cons_of_mem x hy))
    refine ⟨bx ++ bs, ?_, ?_⟩
    · simp [buildListWith, hbx, hbs]
    · intro rest
      rw [List.length_cons, List.append_assoc]
      simp [readList, hgx (bs ++ rest), hread rest]

lemma readList_length {α : Type} {f : List Nat → Option (α × List Nat)} :
    ∀ {n : Nat} {bs : List Nat} {xs : List α} {rest : List Nat},
      readList f n bs = some (xs, rest) → xs.length = n := by
  intro n
  induction n with
  | zero =>
    intro bs xs rest h
    simp [readList] at h
    rw [h.1]
    rfl
  | succ k ih =>
    intro bs xs rest h
    unfold readList at h
    rcases hf : f bs with _ | ⟨x, bs1⟩ <;> rw [hf] at h <;> simp at h
    rcases hr : readList f k bs1 with _ | ⟨xs2, bs2⟩ <;> rw [hr] at h <;> simp at h
    rw [← h.1, List.length_cons, ih hr]

lemma map_toNat_ofNat {l : List ℤ} (h : ∀ v ∈ l, 0 ≤ v) :
    (l.map Int.toNat).map Int.ofNat = l := by
  induction l with
  | nil => rfl
  | cons x xs ih =>
    simp only [List.map_cons, List.cons.injEq]
    constructor
    · exact Int.toNat_of_nonneg (h x (List.mem_cons_self x xs))
    · exact ih (fun v hv => h v (List.mem_cons_of_mem x hv))

/-- Building a well-formed signal succeeds and parsing the resulting blob
returns the edge_count value 2N-1 computed by the Rebuild field, the very
times table and the very edge pairs that were serialized. -/
lemma build_parse_ok {ti : List ℤ} {eps : List EdgePair}
    (h16 : ti.length = 16)
    (hr : ∀ v ∈ ti, 0 ≤ v ∧ v < 4294967296)
    (he : ∀ p ∈ eps, p.pulse < 16 ∧ p.gap < 16)
    (hn1 : 1 ≤ eps.length) (hn2 : eps.length ≤ 32768) :
    ∃ bs, ChuangmiIrSignal_build ti eps = .ok bs ∧
      ChuangmiIrSignal_parse bs = some (2 * eps.length - 1, ti, eps) := by
  have hec0 : (0 : ℤ) ≤ 2 * (eps.length : ℤ) - 1 := by omega
  have hec1 : 2 * (eps.length : ℤ) - 1 < 65536 := by omega
  have hecn : (2 * (eps.length : ℤ) - 1).toNat = 2 * eps.length - 1 := by omega
  obtain ⟨tiB, htiB, htiRead⟩ :=
    buildListWith_readList buildInt32ul readU32le Int.toNat ti
      (fun v hv => ⟨_, buildInt32ul_ok (hr v hv).1 (hr v hv).2,
        fun rest => readU32le_build (hr v hv).1 (hr v hv).2 rest⟩)
  obtain ⟨epB, hepB, hepRead⟩ :=
    buildListWith_readList buildEdgePair readEdgePair id eps
      (fun p hp => ⟨_, buildEdgePair_ok (he p hp).1 (he p hp).2,
        fun rest => readEdgePair_build (he p hp).1 (he p hp).2 rest⟩)
  refine ⟨[0x67, 0xa5] ++
      ([(2 * (eps.length : ℤ) - 1).toNat % 256, (2 * (eps.length : ℤ) - 1).toNat / 256] ++
        (tiB ++ epB)), ?_, ?_⟩
  · unfold ChuangmiIrSignal_build
    rw [buildInt16ul_ok hec0 hec1]
    simp only [buildTimesIndex, h16, if_pos, htiB, hepB]
  · unfold ChuangmiIrSignal_parse
    have hmagic : readU16le ((0x67 : Nat) :: (0xa5 : Nat) ::
        ([(2 * (eps.length : ℤ) - 1).toNat % 256,
          (2 * (eps.length : ℤ) - 1).toNat / 256] ++ (tiB ++ epB))) =
        some (0xa567, [(2 * (eps.length : ℤ) - 1).toNat % 256,
          (2 * (eps.length : ℤ) - 1).toNat / 256] ++ (tiB ++ epB)) := by
      simp [readU16le]
    simp only [List.cons_append, List.nil_append] at hmagic ⊢
    simp only [hmagic]
    simp only [if_true]
    have hec := readU16le_build hec0 hec1 (tiB ++ epB)
    simp only [List.cons_append, List.nil_append] at hec
    simp only [hec]
    have hti := htiRead epB
    rw [h16] at hti
    simp only [hti]
    have hcount : ((2 * (eps.length : ℤ) - 1).toNat + 1) / 2 = eps.length := by omega
    rw [hcount]
    have hep := hepRead []
    rw [List.append_nil, List.map_id] at hep
    simp only [hep]
    rw [hecn, map_toNat_ofNat (fun v hv => (hr v hv).1)]

lemma length_paddedOf {intro rep : List BurstPair} {n : ℤ}
    (hcap : (timesOf intro rep n).length ≤ 16) :
    (paddedOf intro rep n).length = 16 := by
  unfold paddedOf
  rw [List.length_append, List.length_replicate]
  omega

lemma mem_paddedOf {intro rep : List BurstPair} {n : ℤ} {v : ℤ}
    (h : v ∈ paddedOf intro rep n) : v ∈ timesOf intro rep n ∨ v = 0 := by
  unfold paddedOf at h
  rcases List.mem_append.1 h with h1 | h1
  · exact Or.inl h1
  · exact Or.inr (List.eq_of_mem_replicate h1)

lemma timesOf_bounds {intro rep : List BurstPair} {n : ℤ}
    (hb : ∀ p ∈ intro ++ rep,
      (0 ≤ p.pulse ∧ p.pulse < 4294967296) ∧ (0 ≤ p.gap ∧ p.gap < 4294967296)) :
    ∀ v ∈ timesOf intro rep n, 0 ≤ v ∧ v < 4294967296 := by
  intro v hv
  unfold timesOf at hv
  rw [mem_timesList, mem_listTimes] at hv
  obtain ⟨p, hp, hv⟩ := hv
  have hps := hb p (mem_scanList hp)
  rcases hv with rfl | rfl
  · exact hps.1
  · exact hps.2

lemma epsOf_nibbles {intro rep : List BurstPair} {n : ℤ}
    (hcap : (timesOf intro rep n).length ≤ 16) :
    ∀ q ∈ epsOf intro rep n, q.pulse < 16 ∧ q.gap < 16 := by
  intro q hq
  unfold epsOf at hq
  obtain ⟨p, hp, rfl⟩ := List.mem_map.1 hq
  have hm := pair_mem_times hp
  constructor
  · exact lt_of_lt_of_le (List.indexOf_lt_length.2 hm.1) hcap
  · exact lt_of_lt_of_le (List.indexOf_lt_length.2 hm.2) hcap

lemma length_epsOf (intro rep : List BurstPair) (n : ℤ) :
    (epsOf intro rep n).length =
      intro.length + (effRepeats intro n).toNat * rep.length := by
  unfold epsOf transmittedOf
  rw [List.length_map, List.length_append, length_listMul]

/-- Under the side conditions that make serialization possible, the whole
encoding pipeline after parsing succeeds, and the produced blob decodes to
the computed edge_count, the padded times table and the edge pairs. -/
lemma encode_ok {intro rep : List BurstPair} {n : ℤ}
    (hb : ∀ p ∈ intro ++ rep,
      (0 ≤ p.pulse ∧ p.pulse < 4294967296) ∧ (0 ≤ p.gap ∧ p.gap < 4294967296))
    (hcap : (timesOf intro rep n).length ≤ 16)
    (hne : transmittedOf intro rep n ≠ [])
    (hsz : (transmittedOf intro rep n).length ≤ 32768) :
    ∃ bs, ChuangmiIrSignal_build (paddedOf intro rep n) (epsOf intro rep n) = .ok bs ∧
      ChuangmiIrSignal_parse bs =
        some (2 * (epsOf intro rep n).length - 1, paddedOf intro rep n,
          epsOf intro rep n) := by
  have hlen : (epsOf intro rep n).length = (transmittedOf intro rep n).length :=
    List.length_map _ _
  apply build_parse_ok (length_paddedOf hcap)
  · intro v hv
    rcases mem_paddedOf hv with h1 | rfl
    · exact timesOf_bounds hb v h1
    · exact ⟨le_refl 0, by norm_num⟩
  · exact epsOf_nibbles hcap
  · rw [hlen]
    exact List.length_pos.2 hne
  · rw [hlen]
    exact hsz

/-! Bounds satisfied by every successfully parsed Pronto signal. -/

lemma hexVal_lt {c : Char} {v : Nat} (h : hexVal c = some v) : v < 16 := by
  unfold hexVal at h
  split_ifs at h with h1 h2 h3 <;> simp only [Option.some.injEq] at h <;> omega

lemma fromhexAux_lt : ∀ (cs : List Char) (bs : List Nat),
    fromhexAux cs = some bs → ∀ b ∈ bs, b < 256 := by
  intro cs
  induction cs using fromhexAux.induct with
  | case1 =>
    intro bs h
    simp only [fromhexAux, Option.some.injEq] at h
    simp [← h]
  | case2 d cs2 hws ih =>
    intro bs h
    rw [fromhexAux, if_pos hws] at h
    exact ih bs h
  | case3 d cs2 hws hhd =>
    intro bs h
    rw [fromhexAux] at h
    simp only [if_neg hws, hhd] at h
    exact Option.noConfusion h
  | case4 d hws lo hhd =>
    intro bs h
    rw [fromhexAux] at h
    simp only [if_neg hws, hhd] at h
    exact Option.noConfusion h
  | case5 d hws lo hhd d1 cs2 hhd1 =>
    intro bs h
    rw [fromhexAux] at h
    simp only [if_neg hws, hhd, hhd1] at h
    exact Option.noConfusion h
  | case6 d hws lo hhd d1 cs2 lo2 hhd1 hcs ih =>
    intro bs h
    rw [fromhexAux] at h
    simp only [if_neg hws, hhd, hhd1, hcs] at h
    exact Option.noConfusion h
  | case7 d hws lo hhd d1 cs2 lo2 hhd1 r hcs ih =>
    intro bs h
    rw [fromhexAux] at h
    simp only [if_neg hws, hhd, hhd1, hcs, Option.some.injEq] at h
    intro b hb
    rw [← h] at hb
    rcases List.mem_cons.1 hb with rfl | hb2
    · have hl1 := hexVal_lt hhd
      have hl2 := hexVal_lt hhd1
      omega
    · exact ih r hcs b hb2

lemma readU16be_inv {bs : List Nat} {v : Nat} {rest : List Nat}
    (h : readU16be bs = some (v, rest)) :
    ∃ a b, bs = a :: b :: rest ∧ v = a * 256 + b := by
  rcases bs with _ | ⟨a, _ | ⟨b, r⟩⟩ <;> simp [readU16be] at h
  exact ⟨a, b, by rw [h.2], h.1.symm⟩

lemma pulseUs_bound {ticks raw : Nat} (ht : ticks < 65536) (hr : raw < 65536) :
    0 ≤ pulseUs ticks raw ∧ pulseUs ticks raw < 4294967296 := by
  unfold pulseUs
  constructor
  · exact Int.ofNat_nonneg _
  · have h1 : raw * ticks * 241246 ≤ 65535 * 65535 * 241246 := by
      apply Nat.mul_le_mul_right
      exact Nat.mul_le_mul (by omega) (by omega)
    have h2 : raw * ticks * 241246 / 1000000 ≤ 65535 * 65535 * 241246 / 1000000 :=
      Nat.div_le_div_right h1
    have h3 : 65535 * 65535 * 241246 / 1000000 < 4294967296 := by norm_num
    exact_mod_cast lt_of_le_of_lt h2 h3

lemma readBurstPair_bound {ticks : Nat} {bs : List Nat} {p : BurstPair}
    {rest : List Nat} (ht : ticks < 65536) (hb : ∀ b ∈ bs, b < 256)
    (h : readBurstPair ticks bs = some (p, rest)) :
    ((0 ≤ p.pulse ∧ p.pulse < 4294967296) ∧ (0 ≤ p.gap ∧ p.gap < 4294967296)) ∧
      (∀ b ∈ rest, b < 256) := by
  unfold readBurstPair at h
  rcases h1 : readU16be bs with _ | ⟨praw, bs1⟩ <;> rw [h1] at h <;> simp at h
  rcases h2 : readU16be bs1 with _ | ⟨graw, bs2⟩ <;> rw [h2] at h <;> simp at h
  obtain ⟨a1, b1, hbs1, hv1⟩ := readU16be_inv h1
  obtain ⟨a2, b2, hbs2, hv2⟩ := readU16be_inv h2
  have hb1 : ∀ b ∈ bs1, b < 256 := by
    intro b hbm
    exact hb b (by rw [hbs1]; exact List.mem_cons_of_mem _ (List.mem_cons_of_mem _ hbm))
  have hb2 : ∀ b ∈ bs2, b < 256 := by
    intro b hbm
    exact hb1 b (by rw [hbs2]; exact List.mem_cons_of_mem _ (List.mem_cons_of_mem _ hbm))
  have hpr : praw < 65536 := by
    have ha := hb a1 (by rw [hbs1]; exact List.mem_cons_self _ _)
    have hbb := hb b1 (by rw [hbs1]; exact List.mem_cons_of_mem _ (List.mem_cons_self _ _))
    omega
  have hgr : graw < 65536 := by
    have ha := hb1 a2 (by rw [hbs2]; exact List.mem_cons_self _ _)
    have hbb := hb1 b2 (by rw [hbs2]; exact List.mem_cons_of_mem _ (List.mem_cons_self _ _))
    omega
  refine ⟨?_, ?_⟩
  · rw [← h.1]
    exact ⟨pulseUs_bound ht hpr, pulseUs_bound ht hgr⟩
  · intro b hbm
    exact hb2 b (by rw [h.2]; exact hbm)

lemma readList_burst_bound {ticks : Nat} (ht : ticks < 65536) :
    ∀ {n : Nat} {bs : List Nat} {prs : List BurstPair} {rest : List Nat},
      readList (readBurstPair ticks) n bs = some (prs, rest) →
      (∀ b ∈ bs, b < 256) →
      (∀ p ∈ prs,
        (0 ≤ p.pulse ∧ p.pulse < 4294967296) ∧ (0 ≤ p.gap ∧ p.gap < 4294967296)) ∧
        (∀ b ∈ rest, b < 256) := by
  intro n
  induction n with
  | zero =>
    intro bs prs rest h hb
    simp [readList] at h
    refine ⟨?_, ?_⟩
    · intro p hp
      rw [h.1] at hp
      simp at hp
    · intro b hbm
      exact hb b (by rw [h.2]; exact hbm)
  | succ k ih =>
    intro bs prs rest h hb
    unfold readList at h
    rcases hf : readBurstPair ticks bs with _ | ⟨p, bs1⟩ <;> rw [hf] at h <;> simp at h
    rcases hr : readList (readBurstPair ticks) k bs1 with _ | ⟨prs2, bs2⟩ <;>
      rw [hr] at h <;> simp at h
    obtain ⟨hp, hb1⟩ := readBurstPair_bound ht hb hf
    obtain ⟨hprs2, hrest⟩ := ih hr hb1
    refine ⟨?_, ?_⟩
    · intro q hq
      rw [← h.1] at hq
      rcases List.mem_cons.1 hq with rfl | hq2
      · exact hp
      · exact hprs2 q hq2
    · intro b hbm
      exact hrest b (by rw [h.2]; exact hbm)

/-- Inversion of a successful Pronto parse: the byte stream starts with the
zero marker and the tick count, the tick count is nonzero, the frequency
field carries the computed formula, and the two arrays come from readList
with the counts read from the header. -/
lemma prontoParse_inv {bs : List Nat} {pd : ProntoData}
    (h : prontoParse bs = some pd) :
    ∃ (b0 b1 b2 b3 b4 b5 b6 b7 : Nat) (rest bs5 bs6 : List Nat),
      bs = b0 :: b1 :: b2 :: b3 :: b4 :: b5 :: b6 :: b7 :: rest ∧
      b0 * 256 + b1 = 0 ∧
      pd.ticks = b2 * 256 + b3 ∧ pd.ticks ≠ 0 ∧
      pd.frequency = 1000000 / modulation_period pd.ticks ∧
      readList (readBurstPair pd.ticks) (b4 * 256 + b5) rest = some (pd.intro, bs5) ∧
      readList (readBurstPair pd.ticks) (b6 * 256 + b7) bs5 = some (pd.rep, bs6) := by
  unfold prontoParse at h
  rcases h1 : readU16be bs with _ | ⟨marker, bs1⟩ <;> rw [h1] at h <;> simp at h
  obtain ⟨hm, h⟩ := h
  rcases h2 : readU16be bs1 with _ | ⟨ticks, bs2⟩ <;> rw [h2] at h <;> simp at h
  obtain ⟨htz, h⟩ := h
  rcases h3 : readU16be bs2 with _ | ⟨ilen, bs3⟩ <;> rw [h3] at h <;> simp at h
  rcases h4 : readU16be bs3 with _ | ⟨rlen, bs4⟩ <;> rw [h4] at h <;> simp at h
  rcases h5 : readList (readBurstPair ticks) ilen bs4 with _ | ⟨intro, bs5⟩ <;>
    rw [h5] at h <;> simp at h
  rcases h6 : readList (readBurstPair ticks) rlen bs5 with _ | ⟨rep, bs6⟩ <;>
    rw [h6] at h <;> simp at h
  obtain ⟨a0, a1, hbs, hv0⟩ := readU16be_inv h1
  obtain ⟨a2, a3, hbs1, hv1⟩ := readU16be_inv h2
  obtain ⟨a4, a5, hbs2, hv2⟩ := readU16be_inv h3
  obtain ⟨a6, a7, hbs3, hv3⟩ := readU16be_inv h4
  refine ⟨a0, a1, a2, a3, a4, a5, a6, a7, bs4, bs5, bs6, ?_, ?_, ?_, ?_, ?_, ?_, ?_⟩
  · rw [hbs, hbs1, hbs2, hbs3]
  · rw [← hv0, hm]
  · rw [← h, ← hv1]
  · rw [← h]
    exact htz
  · rw [← h]
  · rw [← h, ← hv2]
    exact h5
  · rw [← h, ← hv3]
    exact h6

lemma fromhex_lt {s : String} {bs : List Nat} (h : fromhex s = some bs) :
    ∀ b ∈ bs, b < 256 := fromhexAux_lt s.data bs h

/-- Inversion of ChuangmiIr._parse_pronto: a normal return supplies the
hex bytes and the parsed Pronto record behind it. -/
lemma parse_pronto_inv {s : String} {intro rep : List BurstPair} {freq : ℤ}
    (h : parse_pronto s = .ok (intro, rep, freq)) :
    ∃ bs pd, fromhex s = some bs ∧ prontoParse bs = some pd ∧
      pd.intro = intro ∧ pd.rep = rep ∧ freq = prontoFrequency pd.ticks := by
  unfold parse_pronto at h
  rcases hf : fromhex s with _ | bs <;> rw [hf] at h <;> simp at h
  rcases hp : prontoParse bs with _ | pd <;> rw [hp] at h <;> simp at h
  exact ⟨bs, pd, rfl, hp, h.1, h.2.1, h.2.2.symm⟩

/-- Every pair stored by a successful Pronto parse has durations in the
unsigned 32-bit range, because raw tick counts and the carrier field are
16-bit and the conversion multiplies them by a constant below one. -/
lemma parse_pronto_bound {s : String} {intro rep : List BurstPair} {freq : ℤ}
    (h : parse_pronto s = .ok (intro, rep, freq)) :
    ∀ p ∈ intro ++ rep,
      (0 ≤ p.pulse ∧ p.pulse < 4294967296) ∧ (0 ≤ p.gap ∧ p.gap < 4294967296) := by
  obtain ⟨bs, pd, hf, hp, hi, hr, _⟩ := parse_pronto_inv h
  obtain ⟨b0, b1, b2, b3, b4, b5, b6, b7, rest, bs5, bs6, hbs, _, hticks, _, _,
    hil, hrl⟩ := prontoParse_inv hp
  have hblt := fromhex_lt hf
  rw [hbs] at hblt
  have hrest : ∀ b ∈ rest, b < 256 := by
    intro b hbm
    apply hblt
    simp [hbm]
  have ht : pd.ticks < 65536 := by
    have h2 := hblt b2 (by simp)
    have h3 := hblt b3 (by simp)
    omega
  obtain ⟨hintro, hbs5⟩ := readList_burst_bound ht hil hrest
  obtain ⟨hrep, _⟩ := readList_burst_bound ht hrl hbs5
  intro p hpm
  rcases List.mem_append.1 hpm with hm | hm
  · exact hintro p (by rw [hi]; exact hm)
  · exact hrep p (by rw [hr]; exact hm)

lemma effRepeats_nonneg {intro : List BurstPair} {n : ℤ} (h0 : 0 ≤ n) :
    0 ≤ effRepeats intro n := by
  unfold effRepeats
  split <;> omega

lemma scan_length_le {intro rep : List BurstPair} {n : ℤ} (h0 : 0 ≤ n) :
    (scanList intro rep (effRepeats intro n)).length ≤
      (transmittedOf intro rep n).length := by
  have heff := @effRepeats_nonneg intro n h0
  unfold scanList transmittedOf
  rw [List.length_append, List.length_append, length_listMul]
  split
  · simp
  · next hne =>
    have h1 : 1 ≤ (effRepeats intro n).toNat := by omega
    have h2 := Nat.le_mul_of_pos_left rep.length (by omega : 0 < (effRepeats intro n).toNat)
    omega

lemma transmittedOf_ne_nil {intro rep : List BurstPair} {n : ℤ} (h0 : 0 ≤ n)
    (hs : scanList intro rep (effRepeats intro n) ≠ []) :
    transmittedOf intro rep n ≠ [] := by
  have h1 := @scan_length_le intro rep n h0
  have h2 : 0 < (scanList intro rep (effRepeats intro n)).length :=
    List.length_pos.2 hs
  intro hemp
  rw [hemp, List.length_nil] at h1
  omega

/-- Whenever the side conditions of serialization hold, pronto_to_raw
succeeds and returns the base64 text of a blob that decodes back to the
computed edge_count, times table and edge pairs. -/
lemma pronto_to_raw_ok {s : String} {intro rep : List BurstPair} {freq : ℤ} {n : ℤ}
    (hp : parse_pronto s = .ok (intro, rep, freq)) (h0 : 0 ≤ n)
    (hcap : (timesOf intro rep n).length ≤ 16)
    (hne : (timesOf intro rep n).length ≠ 0)
    (hsz : (transmittedOf intro rep n).length ≤ 32768) :
    ∃ bs, ChuangmiIrSignal_build (paddedOf intro rep n) (epsOf intro rep n) = .ok bs ∧
      pronto_to_raw s n = .ok (b64encode bs, freq) ∧
      ChuangmiIrSignal_parse bs =
        some (2 * (epsOf intro rep n).length - 1, paddedOf intro rep n,
          epsOf intro rep n) := by
  have hb := parse_pronto_bound hp
  have hscan : scanList intro rep (effRepeats intro n) ≠ [] := by
    intro h
    apply hne
    unfold timesOf
    rw [h]
    rfl
  obtain ⟨bs, hbs, hparse⟩ := encode_ok hb hcap (transmittedOf_ne_nil h0 hscan) hsz
  refine ⟨bs, hbs, ?_, hparse⟩
  unfold pronto_to_raw
  rw [if_neg (by omega : ¬ n < 0)]
  simp only [hp, hbs]

/-! Characterization of the integer-arithmetic helpers in terms of the
exact rational formulas of the source. -/

lemma floor_natCast_div (a b : Nat) :
    Int.floor ((a : ℚ) / (b : ℚ)) = ((a / b : ℕ) : ℤ) := by
  rw [show ((a : ℚ) / (b : ℚ)) = (((a : ℕ) : ℤ) : ℚ) / ((b : ℕ) : ℚ) by push_cast; ring]
  rw [Rat.floor_intCast_div_natCast]
  exact (Int.ofNat_div a b).symm

/-- The integer ProntoPulseAdapter step equals the floor of the exact
rational product of the raw tick count and the modulation period. -/
lemma pulseUs_floor (ticks raw : Nat) :
    pulseUs ticks raw = Int.floor ((raw : ℚ) * modulation_period ticks) := by
  unfold pulseUs modulation_period
  rw [show (raw : ℚ) * ((ticks : ℚ) * (241246 / 1000000)) =
      ((raw * ticks * 241246 : ℕ) : ℚ) / ((1000000 : ℕ) : ℚ) by push_cast; ring]
  rw [floor_natCast_div]

/-- The integer round-half-to-even equals pyRound on the rational a / b. -/
lemma pyRoundNat_eq {a b : Nat} (hb : b ≠ 0) :
    pyRoundNat a b = pyRound ((a : ℚ) / (b : ℚ)) := by
  have hbQ : (0 : ℚ) < b := by exact_mod_cast Nat.pos_of_ne_zero hb
  have hfloor : Int.floor ((a : ℚ) / (b : ℚ)) = ((a / b : ℕ) : ℤ) := floor_natCast_div a b
  have key : (a : ℚ) = (b : ℚ) * ((a / b : ℕ) : ℚ) + ((a % b : ℕ) : ℚ) := by
    exact_mod_cast (Nat.div_add_mod a b).symm
  have hfrac : (a : ℚ) / (b : ℚ) - ((a / b : ℕ) : ℚ) = ((a % b : ℕ) : ℚ) / (b : ℚ) := by
    rw [key]
    field_simp
  have h1 : (((a % b : ℕ) : ℚ) / (b : ℚ) < 1 / 2) ↔ (2 * (a % b) < b) := by
    rw [div_lt_div_iff hbQ (by norm_num : (0 : ℚ) < 2), one_mul,
      show ((a % b : ℕ) : ℚ) * 2 = (((a % b) * 2 : ℕ) : ℚ) by push_cast; ring,
      Nat.cast_lt]
    omega
  have h2 : ((1 : ℚ) / 2 < ((a % b : ℕ) : ℚ) / (b : ℚ)) ↔ (b < 2 * (a % b)) := by
    rw [div_lt_div_iff (by norm_num : (0 : ℚ) < 2) hbQ, one_mul,
      show ((a % b : ℕ) : ℚ) * 2 = (((a % b) * 2 : ℕ) : ℚ) by push_cast; ring,
      Nat.cast_lt]
    omega
  have h3 : ((((a / b : ℕ) : ℤ)) % 2 = 0) ↔ ((a / b) % 2 = 0) := by omega
  unfold pyRound pyRoundNat
  rw [hfloor]
  rw [show ((a : ℚ) / (b : ℚ) - (((a / b : ℕ) : ℤ) : ℚ)) =
      ((a % b : ℕ) : ℚ) / (b : ℚ) by push_cast at hfrac ⊢; exact hfrac]
  simp only [h1, h2, h3]

/-- The integer frequency computed by parse_pronto equals Python round()
of the exact frequency formula 1000000 / modulation_period. -/
lemma prontoFrequency_eq {t : Nat} (ht : t ≠ 0) :
    prontoFrequency t = pyRound (1000000 / modulation_period t) := by
  unfold prontoFrequency
  rw [pyRoundNat_eq (by simp [ht] : 241246 * t ≠ 0)]
  congr 1
  have htQ : (t : ℚ) ≠ 0 := Nat.cast_ne_zero.2 ht
  unfold modulation_period
  field_simp
  ring

lemma listMul_nil {α : Type} (n : Nat) : listMul n ([] : List α) = [] := by
  induction n with
  | zero => rfl
  | succ k ih => simp [listMul, ih]

lemma timesOf_ne_zero {intro rep : List BurstPair} {n : ℤ}
    (h : scanList intro rep (effRepeats intro n) ≠ []) :
    (timesOf intro rep n).length ≠ 0 := by
  obtain ⟨p, hp⟩ := List.exists_mem_of_ne_nil _ h
  have hm : p.pulse ∈ timesOf intro rep n := by
    unfold timesOf
    rw [mem_timesList, mem_listTimes]
    exact ⟨p, hp, Or.inl rfl⟩
  have := List.length_pos.2 (List.ne_nil_of_mem hm)
  omega

lemma padded_lookup {intro rep : List BurstPair} {n : ℤ} {v : ℤ}
    (hv : v ∈ timesOf intro rep n) :
    (paddedOf intro rep n).get? ((timesOf intro rep n).indexOf v) = some v := by
  have hidx := List.indexOf_lt_length.2 hv
  unfold paddedOf
  rw [List.get?_append hidx]
  exact List.indexOf_get? hv

/-! Settling the claims. -/

/-- C6 (corrected): for every parsed Pronto signal the frequency field
equals 1000000 divided by the modulation period ticks times 0.241246, and
the integer returned by parse_pronto is Python round() of that value; for
carrier ticks 0x6D = 109 the returned frequency is 38029, not the 38023 of
the claim. -/
theorem C6_frequency :
    (∀ (bs : List Nat) (pd : ProntoData), prontoParse bs = some pd →
      pd.ticks ≠ 0 ∧
      pd.frequency = 1000000 / modulation_period pd.ticks ∧
      prontoFrequency pd.ticks = pyRound pd.frequency) ∧
    parse_pronto "0000 006D 0000 0000" =
      .ok ([], [], pyRound (1000000 / modulation_period 109)) ∧
    pyRound (1000000 / modulation_period 109) = 38029 := by
  have h109 : prontoFrequency 109 = pyRound (1000000 / modulation_period 109) :=
    prontoFrequency_eq (by norm_num)
  have h38 : pyRound (1000000 / modulation_period 109) = 38029 := by
    rw [← h109]
    decide
  refine ⟨?_, ?_, h38⟩
  · intro bs pd h
    obtain ⟨b0, b1, b2, b3, b4, b5, b6, b7, rest, bs5, bs6, _, _, _, htz, hfreq, _, _⟩ :=
      prontoParse_inv h
    exact ⟨htz, hfreq, by rw [prontoFrequency_eq htz, hfreq]⟩
  · rw [h38]
    decide

/-- C6 witness: the universally quantified part of C6_frequency applied to
the byte stream of the minimal raw Pronto header with carrier 0x6D. -/
theorem C6_frequency_witness :
    prontoParse [0, 0, 0, 109, 0, 0, 0, 0] =
      some ⟨109, 1000000 / modulation_period 109, [], []⟩ ∧
    (109 ≠ 0 ∧
      (1000000 / modulation_period 109 : ℚ) = 1000000 / modulation_period 109 ∧
      prontoFrequency 109 = pyRound (1000000 / modulation_period 109)) := by
  have hp : prontoParse [0, 0, 0, 109, 0, 0, 0, 0] =
      some ⟨109, 1000000 / modulation_period 109, [], []⟩ := by rfl
  exact ⟨hp, C6_frequency.1 _ _ hp⟩

/-- C6 counterexample: the frequency returned for carrier ticks 0x6D is
38029, not the 38023 stated by the claim. -/
theorem C6_counterexample :
    parse_pronto "0000 006D 0000 0000" = .ok ([], [], 38029) ∧ (38029 : ℤ) ≠ 38023 :=
  ⟨by decide, by decide⟩

/-- C7 (corrected): each raw 16-bit pulse and gap tick count is converted
to microseconds by multiplying with the modulation period and then
truncating to an integer, the floor of the product, rather than keeping the
exact product. -/
theorem C7_conversion (ticks p1 p0 g1 g0 : Nat) (rest : List Nat) :
    readBurstPair ticks (p1 :: p0 :: g1 :: g0 :: rest) =
      some (⟨Int.floor (((p1 * 256 + p0 : Nat) : ℚ) * modulation_period ticks),
             Int.floor (((g1 * 256 + g0 : Nat) : ℚ) * modulation_period ticks)⟩, rest) := by
  unfold readBurstPair readU16be
  simp only [pulseUs_floor]

/-- C7 counterexample: the pair with raw tick count 0x10 = 16 at carrier
0x6D parses to the duration 420, while the exact product with the
modulation period is 420.733024, so the conversion is not exactly the
multiplication. -/
theorem C7_counterexample :
    parse_pronto "0000 006D 0001 0000 0010 0010" = .ok ([⟨420, 420⟩], [], 38029) ∧
    ((420 : ℚ) ≠ (16 : ℚ) * modulation_period 109) := by
  refine ⟨by decide, ?_⟩
  unfold modulation_period
  norm_num

/-- C10: a Pronto signal parsing to zero intro pairs and zero repeat pairs
never encodes, whatever the repeats argument: the edge-pair list is empty,
the Rebuild field computes the edge_count -1, and serializing -1 as Int16ul
raises a construct error that is not the classified ChuangmiIrException. -/
theorem C10_empty_signal (s : String) (r f : ℤ)
    (hp : parse_pronto s = .ok ([], [], f)) :
    (pronto_to_raw s r).isOk = false ∧
    (0 ≤ r → pronto_to_raw s r = .error (.construct .formatField) ∧
      ∀ m, pronto_to_raw s r ≠ .error (.chuangmi m)) := by
  by_cases h0 : r < 0
  · unfold pronto_to_raw
    rw [if_pos h0]
    exact ⟨rfl, fun hr => absurd h0 (by omega)⟩
  · have heps : epsOf [] [] r = [] := by
      unfold epsOf transmittedOf
      rw [listMul_nil]
      rfl
    have hbuild : ChuangmiIrSignal_build (paddedOf [] [] r) (epsOf [] [] r) =
        .error (.construct .formatField) := by
      unfold ChuangmiIrSignal_build
      rw [heps]
      rfl
    have hres : pronto_to_raw s r = .error (.construct .formatField) := by
      unfold pronto_to_raw
      rw [if_neg h0]
      simp only [hp, hbuild]
    rw [hres]
    exact ⟨rfl, fun _ => ⟨rfl, fun m hm => by simp at hm⟩⟩

/-- C10 witness: the concrete example input of the claim at repeats 0. -/
theorem C10_empty_signal_witness :
    parse_pronto "0000 006D 0000 0000" = .ok ([], [], 38029) ∧
    (pronto_to_raw "0000 006D 0000 0000" 0).isOk = false ∧
    pronto_to_raw "0000 006D 0000 0000" 0 = .error (.construct .formatField) := by
  have hp : parse_pronto "0000 006D 0000 0000" = .ok ([], [], 38029) := by decide
  have h := C10_empty_signal "0000 006D 0000 0000" 0 38029 hp
  exact ⟨hp, h.1, (h.2 (by norm_num)).1⟩

/-- C9: the compressed-variant encoder fails with the classified
ChuangmiIrException whenever the compression library is absent, and with
the library present its payload is the base64 of the compressor applied to
the bytes of the literal string learn concatenated with the base encoding,
the frequency passing through unchanged. -/
theorem C9_compression (pronto : String) (repeats : ℤ) :
    (ChuangmiRemote_pronto_to_raw none pronto repeats =
      .error (.chuangmi "Heatshrink library is missing")) ∧
    (∀ (enc : List Nat → List Nat) (raw : String) (freq : ℤ),
      pronto_to_raw pronto repeats = .ok (raw, freq) →
      ChuangmiRemote_pronto_to_raw (some enc) pronto repeats =
        .ok (b64encode (enc (strBytes ("learn" ++ raw))), freq)) := by
  refine ⟨rfl, ?_⟩
  intro enc raw freq h
  unfold ChuangmiRemote_pronto_to_raw
  simp only [h]

/-- C9 witness: both branches of C9_compression at the one-pair signal,
with the identity function standing for the compressor. -/
theorem C9_compression_witness :
    ChuangmiRemote_pronto_to_raw none "0000 006D 0001 0000 0010 0010" 1 =
      .error (.chuangmi "Heatshrink library is missing") ∧
    ChuangmiRemote_pronto_to_raw (some (fun l => l)) "0000 006D 0001 0000 0010 0010" 1 =
      .ok (b64encode (strBytes ("learn" ++
        "Z6UBAKQBAAAAAAAAAAAAAAAAAAAAAAAAAAAAAAAAAAAAAAAAAAAAAAAAAAAAAAAAAAAAAAAAAAAAAAAAAAAAAAAAAAAA")),
        38029) := by
  have hp : pronto_to_raw "0000 006D 0001 0000 0010 0010" 1 =
      .ok ("Z6UBAKQBAAAAAAAAAAAAAAAAAAAAAAAAAAAAAAAAAAAAAAAAAAAAAAAAAAAAAAAAAAAAAAAAAAAAAAAAAAAAAAAAAAAA",
        38029) := by decide
  exact ⟨(C9_compression _ _).1, (C9_compression _ _).2 (fun l => l) _ _ hp⟩

/-- C1 (corrected): the encoder always stores edge_count = 2N-1, computed
by the Rebuild field from the edge pairs being serialized, and a built blob
parses back to exactly that stored value; the decoder, however, derives the
pair count from edge_count as (edge_count + 1) // 2 instead of validating
edge_count against independently present pairs. -/
theorem C1_edge_count :
    (∀ (ti : List ℤ) (eps : List EdgePair),
      ti.length = 16 →
      (∀ v ∈ ti, 0 ≤ v ∧ v < 4294967296) →
      (∀ p ∈ eps, p.pulse < 16 ∧ p.gap < 16) →
      1 ≤ eps.length → eps.length ≤ 32768 →
      ∃ bs, ChuangmiIrSignal_build ti eps = .ok bs ∧
        ChuangmiIrSignal_parse bs = some (2 * eps.length - 1, ti, eps)) ∧
    (∀ (bs : List Nat) (ec : Nat) (ti : List ℤ) (eps : List EdgePair),
      ChuangmiIrSignal_parse bs = some (ec, ti, eps) → eps.length = (ec + 1) / 2) := by
  constructor
  · intro ti eps h1 h2 h3 h4 h5
    exact build_parse_ok h1 h2 h3 h4 h5
  · intro bs ec ti eps h
    unfold ChuangmiIrSignal_parse at h
    rcases h1 : readU16le bs with _ | ⟨magic, bs1⟩ <;> rw [h1] at h <;> simp at h
    obtain ⟨hmg, h⟩ := h
    rcases h2 : readU16le bs1 with _ | ⟨ec2, bs2⟩ <;> rw [h2] at h <;> simp at h
    rcases h3 : readList readU32le 16 bs2 with _ | ⟨ti2, bs3⟩ <;> rw [h3] at h <;> simp at h
    rcases h4 : readList readEdgePair ((ec2 + 1) / 2) bs3 with _ | ⟨eps2, bs4⟩ <;>
      rw [h4] at h <;> simp at h
    rw [← h.2.2, readList_length h4, h.1]

/-- C1 witness: the first part of C1_edge_count applied to an all-zero
table with a single edge pair, and the second part applied to the blob it
produces. -/
theorem C1_edge_count_witness :
    ChuangmiIrSignal_parse ([0x67, 0xa5, 1, 0] ++ List.replicate 64 0 ++ [0]) =
      some (1, List.replicate 16 (0 : ℤ), [⟨0, 0⟩]) ∧
    ([(⟨0, 0⟩ : EdgePair)].length = (1 + 1) / 2) := by
  have hp : ChuangmiIrSignal_parse ([0x67, 0xa5, 1, 0] ++ List.replicate 64 0 ++ [0]) =
      some (1, List.replicate 16 (0 : ℤ), [⟨0, 0⟩]) := by decide
  exact ⟨hp, C1_edge_count.2 _ 1 _ _ hp⟩

/-- C1 counterexample: a blob whose edge_count field is 4 while holding two
edge pairs, so that edge_count differs from 2 x 2 - 1 = 3, is decoded
successfully rather than rejected. -/
theorem C1_counterexample :
    ChuangmiIrSignal_parse ([0x67, 0xa5, 4, 0] ++ List.replicate 64 0 ++ [0, 0]) =
      some (4, List.replicate 16 (0 : ℤ), [⟨0, 0⟩, ⟨0, 0⟩]) ∧
    ¬((4 : Nat) = 2 * [(⟨0, 0⟩ : EdgePair), ⟨0, 0⟩].length - 1) :=
  ⟨by decide, by decide⟩

/-- C8 (corrected): pronto_to_raw raises the classified FormatError
whenever the binary parse fails, in particular for every input whose first
16-bit field is nonzero, which is never partially parsed; but the PRONTO_RE
shape check is not part of pronto_to_raw at all: a shape-failing string can
still encode successfully. -/
theorem C8_errors :
    (∀ (s : String) (r : ℤ) (bs : List Nat) (m : Nat) (rest : List Nat),
      0 ≤ r → fromhex s = some bs → readU16be bs = some (m, rest) → m ≠ 0 →
      pronto_to_raw s r = .error (.chuangmi "Invalid Pronto command")) ∧
    (PRONTO_RE_match "0000006d000100000010001012" = false ∧
      (pronto_to_raw "0000006d000100000010001012" 1).isOk = true) := by
  constructor
  · intro s r bs m rest h0 hf hu hm
    have hpp : prontoParse bs = none := by
      unfold prontoParse
      simp only [hu]
      rw [if_neg hm]
    have hparse : parse_pronto s = .error (.chuangmi "Invalid Pronto command") := by
      unfold parse_pronto
      simp only [hf, hpp]
    unfold pronto_to_raw
    rw [if_neg (by omega : ¬ r < 0)]
    simp only [hparse]
  · exact ⟨by decide, by decide⟩

/-- C8 witness: the first part of C8_errors at a nonzero-marker input. -/
theorem C8_errors_witness :
    pronto_to_raw "0001006d00000000" 1 = .error (.chuangmi "Invalid Pronto command") :=
  C8_errors.1 "0001006d00000000" 1 [0, 1, 0, 109, 0, 0, 0, 0] 1 [0, 109, 0, 0, 0, 0]
    (by norm_num) (by decide) (by decide) (by decide)

/-- C8 counterexample: the input 0000006d00010000 passes the PRONTO_RE
shape check and has a zero marker, yet pronto_to_raw raises the FormatError
because the declared intro count exceeds the available data, so the error
does not occur exactly when the shape check fails or the marker is nonzero;
the shape check is not consulted before parsing. -/
theorem C8_counterexample :
    PRONTO_RE_match "0000006d00010000" = true ∧
    fromhex "0000006d00010000" = some [0, 0, 0, 109, 0, 1, 0, 0] ∧
    pronto_to_raw "0000006d00010000" 1 = .error (.chuangmi "Invalid Pronto command") :=
  ⟨by decide, by decide, by decide⟩

/-- C5: with an empty intro the effective repeat count is the caller value
plus one, so at repeats 0 the transmitted pair list is exactly one copy of
the repeat sequence; under the serialization side conditions the encoding
then succeeds. -/
theorem C5_empty_intro (s : String) (rep : List BurstPair) (f : ℤ)
    (hp : parse_pronto s = .ok ([], rep, f)) :
    effRepeats [] (0 : ℤ) = 1 ∧
    transmittedOf [] rep 0 = rep ∧
    ((timesOf [] rep 0).length ≤ 16 → rep ≠ [] → rep.length ≤ 32768 →
      ∃ code, pronto_to_raw s 0 = .ok (code, f)) := by
  have htr : transmittedOf [] rep 0 = rep := by
    unfold transmittedOf
    simp [effRepeats, listMul]
  refine ⟨rfl, htr, ?_⟩
  intro hcap hne hsz
  have hscan : scanList [] rep (effRepeats [] 0) ≠ [] := by
    unfold scanList effRepeats
    simpa using hne
  obtain ⟨bs, _, hok, _⟩ := pronto_to_raw_ok hp (by norm_num) hcap
    (timesOf_ne_zero hscan) (by rw [htr]; exact hsz)
  exact ⟨_, hok⟩

/-- C5 witness: a signal with no intro and one repeat pair, at repeats 0:
the repeat pattern is transmitted exactly once and encoding succeeds. -/
theorem C5_empty_intro_witness :
    parse_pronto "0000 006D 0000 0001 0010 0020" = .ok ([], [⟨420, 841⟩], 38029) ∧
    transmittedOf [] [⟨420, 841⟩] 0 = [⟨420, 841⟩] ∧
    (pronto_to_raw "0000 006D 0000 0001 0010 0020" 0).isOk = true := by
  have hp : parse_pronto "0000 006D 0000 0001 0010 0020" =
      .ok ([], [⟨420, 841⟩], 38029) := by decide
  have h := C5_empty_intro _ _ _ hp
  obtain ⟨code, hcode⟩ := h.2.2 (by decide) (by decide) (by decide)
  exact ⟨hp, h.2.1, by rw [hcode]; rfl⟩

/-- C3: with at most sixteen distinct timing values, encoding succeeds
under the serialization side conditions, the blob decodes back to the
stored table and edge pairs, every transmitted pulse and gap is reproduced
exactly by looking its index up in the decoded table, and two timing values
share an index only when they are equal: quantization is lossless. -/
theorem C3_lossless (s : String) (intro rep : List BurstPair) (f n : ℤ)
    (hp : parse_pronto s = .ok (intro, rep, f)) (h0 : 0 ≤ n)
    (hcap : (timesOf intro rep n).length ≤ 16)
    (hne : transmittedOf intro rep n ≠ [])
    (hsz : (transmittedOf intro rep n).length ≤ 32768) :
    ∃ bs ec,
      ChuangmiIrSignal_build (paddedOf intro rep n) (epsOf intro rep n) = .ok bs ∧
      pronto_to_raw s n = .ok (b64encode bs, f) ∧
      ChuangmiIrSignal_parse bs = some (ec, paddedOf intro rep n, epsOf intro rep n) ∧
      (∀ k p, (transmittedOf intro rep n).get? k = some p →
        (epsOf intro rep n).get? k =
          some ⟨(timesOf intro rep n).indexOf p.pulse,
                (timesOf intro rep n).indexOf p.gap⟩ ∧
        (paddedOf intro rep n).get? ((timesOf intro rep n).indexOf p.pulse) =
          some p.pulse ∧
        (paddedOf intro rep n).get? ((timesOf intro rep n).indexOf p.gap) =
          some p.gap) ∧
      (∀ u v, u ∈ listTimes (scanList intro rep (effRepeats intro n)) →
        v ∈ listTimes (scanList intro rep (effRepeats intro n)) →
        (timesOf intro rep n).indexOf u = (timesOf intro rep n).indexOf v → u = v) := by
  have hne' : (timesOf intro rep n).length ≠ 0 := by
    obtain ⟨p, hp2⟩ := List.exists_mem_of_ne_nil _ hne
    have hm := (pair_mem_times hp2).1
    have := List.length_pos.2 (List.ne_nil_of_mem hm)
    omega
  obtain ⟨bs, hbs, hok, hparse⟩ := pronto_to_raw_ok hp h0 hcap hne' hsz
  refine ⟨bs, 2 * (epsOf intro rep n).length - 1, hbs, hok, hparse, ?_, ?_⟩
  · intro k p hk
    have hmem := pair_mem_times (List.get?_mem hk)
    refine ⟨?_, padded_lookup hmem.1, padded_lookup hmem.2⟩
    unfold epsOf
    rw [List.get?_map, hk]
    rfl
  · intro u v hu hv heq
    have hu2 : u ∈ timesOf intro rep n := by
      unfold timesOf
      rw [mem_timesList]
      exact hu
    have hv2 : v ∈ timesOf intro rep n := by
      unfold timesOf
      rw [mem_timesList]
      exact hv
    have h1 := List.indexOf_get? hu2
    have h2 := List.indexOf_get? hv2
    rw [heq, h2] at h1
    exact (Option.some.injEq _ _ ▸ h1).symm

/-- C3 witness: C3_lossless at the one-pair signal with repeats 1. -/
theorem C3_lossless_witness :
    parse_pronto "0000 006D 0001 0000 0010 0010" = .ok ([⟨420, 420⟩], [], 38029) ∧
    (pronto_to_raw "0000 006D 0001 0000 0010 0010" 1).isOk = true := by
  have hp : parse_pronto "0000 006D 0001 0000 0010 0010" =
      .ok ([⟨420, 420⟩], [], 38029) := by decide
  obtain ⟨bs, ec, _, hok, _⟩ := C3_lossless _ _ _ _ 1 hp (by norm_num)
    (by decide) (by decide) (by decide)
  exact ⟨hp, by rw [hok]; rfl⟩

/-- C4 (corrected): both the value-set scan and the transmitted pair list
are built with the effective repeat count, the caller value incremented
once when the intro is empty - the transmitted list does not use the
original caller value.  The scan multiplies the repeat block by one exactly
when the effective count is nonzero, and the decoded edge-pair count equals
len(intro) + effective x len(repeat). -/
theorem C4_effective_repeats (s : String) (intro rep : List BurstPair) (f n : ℤ)
    (hp : parse_pronto s = .ok (intro, rep, f)) (h0 : 0 ≤ n)
    (hcap : (timesOf intro rep n).length ≤ 16)
    (hne : transmittedOf intro rep n ≠ [])
    (hsz : (transmittedOf intro rep n).length ≤ 32768) :
    scanList intro rep (effRepeats intro n) =
      intro ++ (if effRepeats intro n = 0 then [] else rep) ∧
    ∃ bs ec ti eps,
      ChuangmiIrSignal_build (paddedOf intro rep n) (epsOf intro rep n) = .ok bs ∧
      pronto_to_raw s n = .ok (b64encode bs, f) ∧
      ChuangmiIrSignal_parse bs = some (ec, ti, eps) ∧
      eps.length = intro.length + (effRepeats intro n).toNat * rep.length := by
  have hne' : (timesOf intro rep n).length ≠ 0 := by
    obtain ⟨p, hp2⟩ := List.exists_mem_of_ne_nil _ hne
    have hm := (pair_mem_times hp2).1
    have := List.length_pos.2 (List.ne_nil_of_mem hm)
    omega
  obtain ⟨bs, hbs, hok, hparse⟩ := pronto_to_raw_ok hp h0 hcap hne' hsz
  refine ⟨rfl, bs, 2 * (epsOf intro rep n).length - 1, paddedOf intro rep n,
    epsOf intro rep n, hbs, hok, hparse, length_epsOf intro rep n⟩

/-- C4 witness: C4_effective_repeats at a signal with one intro pair and
one repeat pair, repeats 2. -/
theorem C4_effective_repeats_witness :
    parse_pronto "0000 006D 0001 0001 0010 0010 0010 0020" =
      .ok ([⟨420, 420⟩], [⟨420, 841⟩], 38029) ∧
    (pronto_to_raw "0000 006D 0001 0001 0010 0010 0010 0020" 2).isOk = true := by
  have hp : parse_pronto "0000 006D 0001 0001 0010 0010 0010 0020" =
      .ok ([⟨420, 420⟩], [⟨420, 841⟩], 38029) := by decide
  obtain ⟨_, bs, ec, ti, eps, _, hok, _⟩ := C4_effective_repeats _ _ _ _ 2 hp
    (by norm_num) (by decide) (by decide) (by decide)
  exact ⟨hp, by rw [hok]; rfl⟩

/-- C4 counterexample: with an empty intro and caller repeats 0, the code
transmits one copy of the repeat block and encodes successfully, while the
formula of the claim, which uses the original caller value for the final
concatenation and for the scan, yields an empty transmitted list and an
empty scan. -/
theorem C4_counterexample :
    parse_pronto "0000 006D 0000 0001 0011 0020" = .ok ([], [⟨447, 841⟩], 38029) ∧
    transmittedOf [] [⟨447, 841⟩] 0 = [⟨447, 841⟩] ∧
    ([] : List BurstPair) ++ listMul (Int.toNat 0) [(⟨447, 841⟩ : BurstPair)] = [] ∧
    ([] : List BurstPair) ++
      (if (0 : ℤ) = 0 then [] else [(⟨447, 841⟩ : BurstPair)]) = [] ∧
    (pronto_to_raw "0000 006D 0000 0001 0011 0020" 0).isOk = true :=
  ⟨by decide, by decide, by decide, by decide, by decide⟩

/-- C2 (corrected): with exactly sixteen distinct timing values the signal
encodes successfully, provided the transmitted pair count keeps the 16-bit
edge_count representable; with seventeen or more distinct values the
encoding fails, but with the construct Array RangeError escaping from the
unchecked build of the oversized times list, not with a classified
CapacityError of the codec. -/
theorem C2_capacity (s : String) (intro rep : List BurstPair) (f n : ℤ)
    (hp : parse_pronto s = .ok (intro, rep, f)) (h0 : 0 ≤ n)
    (hsz : (transmittedOf intro rep n).length ≤ 32768) :
    ((timesOf intro rep n).length = 16 → ∃ code, pronto_to_raw s n = .ok (code, f)) ∧
    (17 ≤ (timesOf intro rep n).length →
      pronto_to_raw s n = .error (.construct .rangeError)) := by
  constructor
  · intro h16
    obtain ⟨bs, _, hok, _⟩ := pronto_to_raw_ok hp h0 (le_of_eq h16) (by omega) hsz
    exact ⟨_, hok⟩
  · intro h17
    have hscan : scanList intro rep (effRepeats intro n) ≠ [] := by
      intro hh
      have hz : (timesOf intro rep n).length = 0 := by
        unfold timesOf
        rw [hh]
        rfl
      omega
    have htne := transmittedOf_ne_nil h0 hscan
    have hlen : (epsOf intro rep n).length = (transmittedOf intro rep n).length :=
      List.length_map _ _
    have htpos := List.length_pos.2 htne
    have hec0 : (0 : ℤ) ≤ 2 * ((epsOf intro rep n).length : ℤ) - 1 := by omega
    have hec1 : 2 * ((epsOf intro rep n).length : ℤ) - 1 < 65536 := by omega
    have hpadlen : (paddedOf intro rep n).length = (timesOf intro rep n).length := by
      unfold paddedOf
      rw [List.length_append, List.length_replicate]
      omega
    have hbuildTi : buildTimesIndex (paddedOf intro rep n) =
        .error (.construct .rangeError) := by
      unfold buildTimesIndex
      rw [if_neg (by omega : ¬ (paddedOf intro rep n).length = 16)]
    have hbuild : ChuangmiIrSignal_build (paddedOf intro rep n) (epsOf intro rep n) =
        .error (.construct .rangeError) := by
      unfold ChuangmiIrSignal_build
      rw [buildInt16ul_ok hec0 hec1]
      simp only [hbuildTi]
    unfold pronto_to_raw
    rw [if_neg (by omega : ¬ n < 0)]
    simp only [hp, hbuild]

/-- C2 witness: both branches of C2_capacity, at the sixteen-value signal
pronto16 and at the seventeen-value signal pronto17. -/
theorem C2_capacity_witness :
    parse_pronto pronto16 = .ok (introSixteen, [], 38029) ∧
    (pronto_to_raw pronto16 1).isOk = true ∧
    pronto_to_raw pronto17 1 = .error (.construct .rangeError) := by
  have hp16 : parse_pronto pronto16 = .ok (introSixteen, [], 38029) := by decide
  have hp17 : parse_pronto pronto17 = .ok (introSeventeen, [], 38029) := by decide
  obtain ⟨code, hcode⟩ :=
    (C2_capacity _ _ _ _ 1 hp16 (by norm_num) (by decide)).1 (by decide)
  have h17 := (C2_capacity _ _ _ _ 1 hp17 (by norm_num) (by decide)).2 (by decide)
  exact ⟨hp16, by rw [hcode]; rfl, h17⟩

lemma build_edge_count_overflow {ti : List ℤ} {eps : List EdgePair}
    (h : 32769 ≤ eps.length) :
    ChuangmiIrSignal_build ti eps = .error (.construct .formatField) := by
  have h16 : buildInt16ul (2 * (eps.length : ℤ) - 1) =
      .error (.construct .formatField) := by
    unfold buildInt16ul
    rw [if_neg]
    push_cast
    omega
  unfold ChuangmiIrSignal_build
  simp only [h16]

lemma pronto_to_raw_build_error {s : String} {intro rep : List BurstPair}
    {f n : ℤ} {e : PyErr}
    (hp : parse_pronto s = .ok (intro, rep, f)) (h0 : 0 ≤ n)
    (hbuild : ChuangmiIrSignal_build (paddedOf intro rep n) (epsOf intro rep n) =
      .error e) :
    pronto_to_raw s n = .error e := by
  unfold pronto_to_raw
  rw [if_neg (by omega : ¬ n < 0)]
  simp only [hp, hbuild]

/-- C2 counterexample: the seventeen-value signal fails with the construct
RangeError, which is not a classified codec exception such as a
CapacityError message; and a sixteen-value signal with 32769 transmitted
pairs fails as well, because the computed edge_count 65537 does not fit the
16-bit field, so exactly-sixteen distinct values alone do not guarantee a
successful encoding. -/
theorem C2_counterexample :
    pronto_to_raw pronto17 1 = .error (.construct .rangeError) ∧
    (∀ m, pronto_to_raw pronto17 1 ≠ .error (.chuangmi m)) ∧
    parse_pronto prontoBig = .ok (introSixteen, [⟨26, 52⟩], 38029) ∧
    (timesOf introSixteen [⟨26, 52⟩] 32761).length = 16 ∧
    pronto_to_raw prontoBig 32761 = .error (.construct .formatField) := by
  have h17 : pronto_to_raw pronto17 1 = .error (.construct .rangeError) := by decide
  have hp : parse_pronto prontoBig = .ok (introSixteen, [⟨26, 52⟩], 38029) := by decide
  have hlen : (epsOf introSixteen [⟨26, 52⟩] 32761).length = 32769 := by
    rw [length_epsOf]
    decide
  exact ⟨h17, fun m hm => by rw [h17] at hm; simp at hm, hp, by decide,
    pronto_to_raw_build_error hp (by norm_num)
      (build_edge_count_overflow (le_of_eq hlen.symm))⟩

end Mirobo
